import Mathlib

/-!
Shallow embedding of the wget-rs download coordinator (src/download.rs) and
hash-verification collaborator (src/hash.rs).

Machine integers of the source (`u64`, `u32`) are modelled as `Nat`: every
arithmetic expression reachable in the modelled paths stays strictly below
2^64 (range starts and ends are bounded by the total size, which is itself a
parsed `u64`), so no wraparound is observable and the `Nat` embedding is
faithful.  The one place where Rust integer semantics differ from `Nat`
(division by zero panics instead of returning 0) is modelled explicitly with
an `Option` result.
-/

namespace Wget

/-! ### Hash collaborator (src/hash.rs) -/

/-- Supported digest algorithms, mirroring `enum HashType` in src/hash.rs. -/
inductive HashType where
  | MD5
  | SHA1
  | SHA256
  | CRC32
deriving DecidableEq

/-- ASCII lowercasing of a string, modelling Rust `str::to_lowercase` on the
hexadecimal/ASCII inputs the hash code deals with. -/
def to_lowercase (s : String) : String :=
  String.mk (s.data.map Char.toLower)

/-- Mirrors `detect_hash_type` (src/hash.rs lines 142-150): the algorithm is
inferred solely from the length of the expected hash string. -/
def detect_hash_type (hashValue : String) : Option HashType :=
  if hashValue.length = 8 then some HashType.CRC32
  else if hashValue.length = 32 then some HashType.MD5
  else if hashValue.length = 40 then some HashType.SHA1
  else if hashValue.length = 64 then some HashType.SHA256
  else none

/-- Mirrors `verify_hash` (src/hash.rs lines 136-139).  The file digest
computation (`calculate_hash`, which delegates to the external md5/sha1/sha2/
crc32fast crates) is abstracted as the oracle `digest`, giving the lowercase
hex value the crates produce for the file. -/
def verify_hash (digest : HashType → String) (hashType : HashType) (expected : String) : Bool :=
  to_lowercase (digest hashType) == to_lowercase expected

/-- Mirrors `verify_and_display` (src/hash.rs lines 161-181): detect the
algorithm from the expected value's length, compare lowercased digests, and
fail on mismatch or on an unrecognized length. -/
def verify_and_display (digest : HashType → String) (expected : String) : Except String Unit :=
  match detect_hash_type expected with
  | none => Except.error ("无法识别哈希值格式: " ++ expected)
  | some hashType =>
      if to_lowercase (digest hashType) == to_lowercase expected then Except.ok ()
      else Except.error "哈希验证失败"

/-- Whether a verification run succeeded (the `Ok`/`Err` distinction the
caller in main.rs acts on). -/
def verification_ok (r : Except String Unit) : Bool :=
  match r with
  | Except.ok _ => true
  | Except.error _ => false

/-! ### Resume negotiation (src/download.rs, `check_resume_capability`) -/

/-- Mirrors `reqwest::StatusCode::is_success`: 2xx statuses. -/
def isSuccessStatus (status : Nat) : Bool :=
  decide (200 ≤ status ∧ status ≤ 299)

/-- Mirrors `check_resume_capability` (src/download.rs lines 17-48).  The
HTTP exchange is abstracted to its observable inputs: the response status and
the parsed Content-Length value (`contentLength`, 0 when the header is
missing or unparsable, matching `unwrap_or(0)`).  Returns
`(supports_resume, server_total_size)` or the failing status. -/
def check_resume_capability (status contentLength startPos : Nat) :
    Except Nat (Bool × Nat) :=
  if status = 206 then Except.ok (true, contentLength + startPos)
  else if status = 416 then Except.ok (false, startPos)
  else if isSuccessStatus status then Except.ok (false, contentLength)
  else Except.error status

/-- Outcome of the resume negotiation as acted on by `download_file`
(src/download.rs lines 236-252). -/
inductive ResumeDecision where
  | resumable (offset total : Nat)
  | alreadyComplete
  | restart (total : Nat)
  | checkFailed (status : Nat)
deriving DecidableEq

/-- Mirrors the caller-side classification of the negotiator's result in
`download_file` (src/download.rs lines 236-252): a supporting server resumes
from `existing`; otherwise an existing size at or above the server total
means the file is already complete; otherwise the download restarts.  The
`Err` arm (`checkFailed`) is logged by the source and also leads to a fresh
download. -/
def classify_resume (existing status contentLength : Nat) : ResumeDecision :=
  match check_resume_capability status contentLength existing with
  | Except.ok (true, serverTotal) => ResumeDecision.resumable existing serverTotal
  | Except.ok (false, serverTotal) =>
      if existing ≥ serverTotal then ResumeDecision.alreadyComplete
      else ResumeDecision.restart serverTotal
  | Except.error s => ResumeDecision.checkFailed s

/-! ### Strategy decision (src/download.rs, `download_file` lines 281-300) -/

/-- Download strategy chosen by the orchestrator. -/
inductive DlMode where
  | single
  | parallel
deriving DecidableEq

/-- Mirrors the strategy decision in `download_file` (src/download.rs lines
281-300): single-threaded when the size is unknown, ranges are unsupported on
a fresh download, exactly one thread is requested, a resume offset is active,
or the per-thread chunk size truncates to zero.  `none` models the one input
on which the source does not decide at all: with `threads == 0` (and none of
the earlier fallbacks firing) the expression
`final_total_size / threads as u64` is a Rust integer division by zero and
panics. -/
def decide_mode (totalSize threads : Nat) (supportsRanges : Bool)
    (resumeFrom : Option Nat) : Option DlMode :=
  if totalSize = 0 ∨ (supportsRanges = false ∧ resumeFrom = none) ∨ threads = 1 then
    some DlMode.single
  else if resumeFrom.isSome then
    some DlMode.single
  else if threads = 0 then
    none
  else if totalSize / threads = 0 then
    some DlMode.single
  else
    some DlMode.parallel

/-! ### Range planner (src/download.rs, `download_file` lines 294-311) -/

/-- The inclusive byte range planned for worker `i`: mirrors the loop body in
`download_file` (lines 305-311) with `chunk_size = totalSize / threads`. -/
def plan_range (totalSize threads i : Nat) : Nat × Nat :=
  (i * (totalSize / threads),
   if i = threads - 1 then totalSize - 1
   else (i + 1) * (totalSize / threads) - 1)

/-- The full ordered range plan of the parallel path: one range per worker
index `i` in `[0, threads)`. -/
def range_plan (totalSize threads : Nat) : List (Nat × Nat) :=
  (List.range threads).map (plan_range totalSize threads)

/-! ### Chunk fetcher (src/download.rs, `download_chunk` lines 98-138) -/

/-- Per-chunk memory ceiling, mirroring `MAX_CHUNK_SIZE` in `download_chunk`. -/
def MAX_CHUNK_SIZE : Nat := 100 * 1024 * 1024

/-- Errors `download_chunk` can produce: the configuration error for an
oversized chunk, and the HTTP status error (the source formats both into
strings carrying the size resp. the status and canonical reason). -/
inductive ChunkError where
  | tooLarge (chunkSize : Nat)
  | http (status : Nat)
deriving DecidableEq

/-- Mirrors `download_chunk` (src/download.rs lines 98-138) on its observable
inputs: the planned range and the server's response (status and body) to
`Range: bytes=start-stop`.  The size ceiling is checked before the request is
issued; then any non-success status is an error; otherwise the whole body is
buffered and returned. -/
def download_chunk (start stop status : Nat) (body : List Nat) :
    Except ChunkError (List Nat) :=
  let chunkSize := stop - start + 1
  if MAX_CHUNK_SIZE < chunkSize then Except.error (ChunkError.tooLarge chunkSize)
  else if isSuccessStatus status then Except.ok body
  else Except.error (ChunkError.http status)

/-- One worker's fetch of its range, against a server modelled as a function
from the requested range to a (status, body) response. -/
def fetch_chunk (resp : Nat × Nat → Nat × List Nat) (r : Nat × Nat) :
    Except ChunkError (List Nat) :=
  download_chunk r.1 r.2 (resp r).1 (resp r).2

/-- Mirrors the join loop of `download_file` (lines 328-339): chunk results
are collected in range order and the first worker error fails the whole job. -/
def fetch_all (resp : Nat × Nat → Nat × List Nat) :
    List (Nat × Nat) → Except ChunkError (List (List Nat))
  | [] => Except.ok []
  | r :: rest =>
    match fetch_chunk resp r with
    | Except.error e => Except.error e
    | Except.ok b =>
      match fetch_all resp rest with
      | Except.error e => Except.error e
      | Except.ok bs => Except.ok (b :: bs)

/-- The bytes a range-honoring server returns for `Range: bytes=start-stop`
against a resource `remote`: the inclusive slice `[start, stop]`. -/
def slice_range (remote : List Nat) (start stop : Nat) : List Nat :=
  (remote.drop start).take (stop - start + 1)

/-- A server that honors every range request on `remote` with status 206 and
the exact requested slice. -/
def honoring_server (remote : List Nat) : Nat × Nat → Nat × List Nat :=
  fun r => (206, slice_range remote r.1 r.2)

/-- The parallel path of `download_file` end to end (lines 302-346): fetch
every planned range, and on overall success write the chunk buffers to the
output file strictly in plan order (the merge loop at lines 342-346),
which concatenates them. -/
def parallel_download (remote : List Nat) (totalSize threads : Nat) :
    Except ChunkError (List Nat) :=
  match fetch_all (honoring_server remote) (range_plan totalSize threads) with
  | Except.error e => Except.error e
  | Except.ok chunks => Except.ok chunks.flatten

/-- Result of `download_single_threaded` (lines 140-200) on a fresh download:
the 8192-byte read/write loop copies the response body to the file verbatim,
so the file content equals the remote resource. -/
def single_threaded_download (remote : List Nat) : List Nat := remote

/-! ### Filename derivation (src/download.rs lines 72-89 and 215-220)

`extract_filename_from_headers` applies the regex
`filename\*?=(?:UTF-8约)?[quote]?([^;quotes]+)[quote]?` (where the literal
apostrophes and quotes of the pattern are spelled out below) to the
Content-Disposition value and returns the first capture.  The functions below
implement exactly that regex's leftmost-first (Perl-style greedy) match
semantics for this fixed pattern, scanning candidate start positions left to
right. -/

/-- The ASCII apostrophe, U+0027. -/
def squote : Char := Char.ofNat 39

/-- The ASCII double quote, U+0022. -/
def dquote : Char := Char.ofNat 34

/-- Membership in the regex character class `[^;"']` (negated: true when the
character may be part of the captured filename). -/
def classOk (c : Char) : Bool :=
  !(c == ';' || c == dquote || c == squote)

/-- Matches the regex tail `["']?([^;"']+)["']?` at the head of `s`,
returning the capture: an optional opening quote, then a maximal nonempty
run of class characters (the trailing optional quote constrains nothing). -/
def matchCore (s : List Char) : Option (List Char) :=
  let t := match s with
    | c :: rest => if c == dquote || c == squote then rest else s
    | [] => []
  let run := t.takeWhile classOk
  if run.isEmpty then none else some run

/-- The literal `UTF-8` followed by two apostrophes, i.e. the regex group
`(?:UTF-8 apostrophe apostrophe)?`. -/
def utf8Marker : List Char := 'U' :: 'T' :: 'F' :: '-' :: '8' :: squote :: squote :: []

/-- Matches `(?:UTF-8 marker)? ["']?([^;"']+)["']?` at the head of `s`:
greedily try consuming the marker first, backtracking to the unconsumed
branch if the rest of the pattern then fails. -/
def matchAfterEq (s : List Char) : Option (List Char) :=
  if utf8Marker.isPrefixOf s then
    match matchCore (s.drop 7) with
    | some r => some r
    | none => matchCore s
  else matchCore s

/-- The literal `filename`. -/
def fnLit : List Char := "filename".toList

/-- Matches the whole pattern anchored at the head of `s`: the literal
`filename`, an optional `*`, `=`, then the tail handled by `matchAfterEq`. -/
def matchAt (s : List Char) : Option (List Char) :=
  if fnLit.isPrefixOf s then
    match s.drop 8 with
    | c1 :: c2 :: rest =>
      if c1 == '*' then (if c2 == '=' then matchAfterEq rest else none)
      else if c1 == '=' then matchAfterEq (c2 :: rest)
      else none
    | _ => none
  else none

/-- Leftmost match of the disposition regex: the first start position at
which the pattern matches wins, exactly as `Regex::captures` behaves. -/
def findFilename : List Char → Option (List Char)
  | [] => none
  | c :: rest =>
    match matchAt (c :: rest) with
    | some r => some r
    | none => findFilename rest

/-- Mirrors `extract_filename_from_headers` (src/download.rs lines 72-81):
`dispo` is the Content-Disposition header value when present. -/
def extract_filename_from_headers (dispo : Option (List Char)) : Option (List Char) :=
  match dispo with
  | none => none
  | some s => findFilename s

/-- Splitting a character list at every `/`, with the same semantics as
Rust's `str::split('/')`: adjacent separators and separators at either end
produce empty segments, and the empty input yields one empty segment. -/
def split_on_slash : List Char → List (List Char)
  | [] => [[]]
  | c :: rest =>
    if c = '/' then [] :: split_on_slash rest
    else
      match split_on_slash rest with
      | [] => [[c]]
      | seg :: segs => (c :: seg) :: segs

/-- Mirrors `extract_filename_from_url` (src/download.rs lines 83-89): the
last `/`-separated segment of the URL when nonempty, else `output`. -/
def extract_filename_from_url (url : List Char) : List Char :=
  let lastSeg := (split_on_slash url).getLastD []
  if lastSeg = [] then "output".toList else lastSeg

/-- Mirrors the filename selection in `download_file` (lines 215-220) when no
output name was given on the command line: the header-derived name if the
regex matched, else the URL-derived name. -/
def suggest_filename (dispo : Option (List Char)) (url : List Char) : List Char :=
  match extract_filename_from_headers dispo with
  | some name => name
  | none => extract_filename_from_url url

/-! ### Supporting lemmas -/

/-- Joining the results of `fetch_all` fails as soon as any one worker's
fetch failed: the first error encountered in range order is surfaced. -/
lemma fetch_all_first_error (resp : Nat × Nat → Nat × List Nat) :
    ∀ (plan : List (Nat × Nat)) (r : Nat × Nat) (e : ChunkError),
      r ∈ plan → fetch_chunk resp r = Except.error e →
      ∃ e2, fetch_all resp plan = Except.error e2 := by
  intro plan
  induction plan with
  | nil => intro r e hmem; cases hmem
  | cons hd tl ih =>
    intro r e hmem hfc
    cases hmem with
    | head => exact ⟨e, by simp [fetch_all, hfc]⟩
    | tail _ hmem2 =>
      cases hhd : fetch_chunk resp hd with
      | error e3 => exact ⟨e3, by simp [fetch_all, hhd]⟩
      | ok b =>
        obtain ⟨e2, h2⟩ := ih r e hmem2 hfc
        exact ⟨e2, by simp [fetch_all, hhd, h2]⟩

/-- A plan covers the suffix `[s, L)` of a resource of length `L`: the first
range starts at `s`, ranges are nonempty and contiguous, and the last range
ends at `L - 1` (an empty plan covers the empty suffix `s = L`). -/
inductive Covers (L : Nat) : Nat → List (Nat × Nat) → Prop where
  | nil : Covers L L []
  | cons {s e : Nat} {rest : List (Nat × Nat)} (hse : s ≤ e)
      (h : Covers L (e + 1) rest) : Covers L s ((s, e) :: rest)

/-- Concatenating the honored slices of a covering plan reconstructs the
resource suffix the plan covers. -/
lemma covers_flatten (remote : List Nat) :
    ∀ (plan : List (Nat × Nat)) (s : Nat), Covers remote.length s plan →
      ((plan.map fun r => slice_range remote r.1 r.2).flatten) = remote.drop s := by
  intro plan
  induction plan with
  | nil =>
    intro s h
    cases h
    simp [List.drop_length]
  | cons hd tl ih =>
    intro s h
    cases h with
    | cons hse h2 =>
      rename_i e
      simp only [List.map_cons, List.flatten_cons]
      rw [ih _ h2]
      have hdd : remote.drop (e + 1) = (remote.drop s).drop (e - s + 1) := by
        rw [List.drop_drop]
        congr 1
        omega
      rw [hdd, slice_range, List.take_append_drop]

/-- The suffix of the range plan from worker `i` on covers `[i * chunk_size,
totalSize)`, provided every worker index up to `threads` remains. -/
lemma covers_range_plan_aux (totalSize threads : Nat)
    (htotal : 0 < totalSize) (hcs : 1 ≤ totalSize / threads)
    (hmul : threads * (totalSize / threads) ≤ totalSize) :
    ∀ n i, i + n = threads → 1 ≤ n →
      Covers totalSize (i * (totalSize / threads))
        ((List.range' i n).map (plan_range totalSize threads)) := by
  intro n
  induction n with
  | zero => intro i h h1; omega
  | succ n ih =>
    intro i hith hn
    rw [List.range'_succ, List.map_cons]
    have hle : (i + 1) * (totalSize / threads) ≤ threads * (totalSize / threads) :=
      Nat.mul_le_mul_right _ (by omega)
    have hsm : (i + 1) * (totalSize / threads)
        = i * (totalSize / threads) + (totalSize / threads) := Nat.succ_mul i _
    cases Nat.eq_zero_or_pos n with
    | inl h0 =>
      subst h0
      have hi : i = threads - 1 := by omega
      simp only [plan_range, if_pos hi, List.range', List.map_nil]
      have hend : totalSize - 1 + 1 = totalSize := by omega
      exact Covers.cons (by omega) (hend ▸ Covers.nil)
    | inr hpos =>
      have hi : i ≠ threads - 1 := by omega
      simp only [plan_range, if_neg hi]
      refine Covers.cons (by omega) ?_
      have hend : (i + 1) * (totalSize / threads) - 1 + 1
          = (i + 1) * (totalSize / threads) := by omega
      rw [hend]
      exact ih (i + 1) (by omega) (by omega)

/-- The full range plan covers `[0, totalSize)`. -/
lemma covers_range_plan (totalSize threads : Nat)
    (htotal : 0 < totalSize) (hth : 2 ≤ threads) (hcs : 1 ≤ totalSize / threads) :
    Covers totalSize 0 (range_plan totalSize threads) := by
  have hmul : threads * (totalSize / threads) ≤ totalSize := by
    rw [Nat.mul_comm]
    exact Nat.div_mul_le_self totalSize threads
  have h := covers_range_plan_aux totalSize threads htotal hcs hmul threads 0
    (by omega) (by omega)
  simpa [range_plan, List.range_eq_range'] using h

/-- A chunk download that succeeded returned exactly the response body. -/
lemma download_chunk_ok {start stop status : Nat} {body b : List Nat}
    (h : download_chunk start stop status body = Except.ok b) : b = body := by
  by_cases h1 : MAX_CHUNK_SIZE < stop - start + 1
  · simp [download_chunk, h1] at h
  · by_cases h2 : isSuccessStatus status = true
    · simp [download_chunk, h1, h2] at h
      exact h.symm
    · simp [download_chunk, h1, h2] at h

/-- When the whole join loop succeeds, the collected buffers are exactly the
response bodies of the planned ranges, in plan order. -/
lemma fetch_all_ok (resp : Nat × Nat → Nat × List Nat) :
    ∀ (plan : List (Nat × Nat)) (bs : List (List Nat)),
      fetch_all resp plan = Except.ok bs → bs = plan.map fun r => (resp r).2 := by
  intro plan
  induction plan with
  | nil =>
    intro bs h
    cases h
    rfl
  | cons hd tl ih =>
    intro bs h
    unfold fetch_all at h
    cases hhd : fetch_chunk resp hd with
    | error e => rw [hhd] at h; cases h
    | ok b =>
      rw [hhd] at h
      cases htl : fetch_all resp tl with
      | error e => rw [htl] at h; cases h
      | ok bs2 =>
        rw [htl] at h
        cases h
        have hb : b = (resp hd).2 := download_chunk_ok hhd
        rw [List.map_cons, ← ih bs2 htl, hb]

/-- Indexing the range plan: entry `j` is `plan_range totalSize threads j`. -/
lemma range_plan_getD (totalSize threads j : Nat) (hj : j < threads) :
    (range_plan totalSize threads).getD j (0, 0) = plan_range totalSize threads j := by
  simp [range_plan, List.getD, hj]

/-- Sum of a function mapped over `List.range` as a `Finset.range` sum. -/
lemma sum_map_range (f : Nat → Nat) (n : Nat) :
    ((List.range n).map f).sum = ∑ i ∈ Finset.range n, f i := by
  induction n with
  | zero => simp
  | succ n ih =>
    rw [List.range_succ, List.map_append, List.sum_append, Finset.sum_range_succ, ih]
    simp

/-! ### Claim theorems -/

/-- C1: for `total_size > 0`, `thread_count ≥ 2` and
`total_size / thread_count ≥ 1`, the parallel path's range plan is a sorted,
contiguous, non-overlapping partition of `[0, total_size)`: one range per
worker, the first start is 0, the last end is `total_size - 1`, each range's
start is the previous range's end plus one, every range is nonempty, and the
inclusive lengths sum to `total_size`. -/
theorem range_plan_partition (totalSize threads : Nat)
    (htotal : 0 < totalSize) (hth : 2 ≤ threads) (hcs : 1 ≤ totalSize / threads) :
    (range_plan totalSize threads).length = threads
    ∧ ((range_plan totalSize threads).getD 0 (0, 0)).1 = 0
    ∧ ((range_plan totalSize threads).getD (threads - 1) (0, 0)).2 = totalSize - 1
    ∧ (∀ j, j + 1 < threads →
        ((range_plan totalSize threads).getD (j + 1) (0, 0)).1
          = ((range_plan totalSize threads).getD j (0, 0)).2 + 1)
    ∧ (∀ j, j < threads →
        ((range_plan totalSize threads).getD j (0, 0)).1
          ≤ ((range_plan totalSize threads).getD j (0, 0)).2)
    ∧ ((range_plan totalSize threads).map (fun r => r.2 - r.1 + 1)).sum = totalSize := by
  have hmul : threads * (totalSize / threads) ≤ totalSize := by
    rw [Nat.mul_comm]
    exact Nat.div_mul_le_self totalSize threads
  refine ⟨?_, ?_, ?_, ?_, ?_, ?_⟩
  · simp [range_plan]
  · rw [range_plan_getD _ _ 0 (by omega)]
    simp [plan_range]
  · rw [range_plan_getD _ _ (threads - 1) (by omega)]
    simp [plan_range]
  · intro j hj
    rw [range_plan_getD _ _ (j + 1) (by omega), range_plan_getD _ _ j (by omega)]
    have hne : j ≠ threads - 1 := by omega
    have hpos : 0 < (j + 1) * (totalSize / threads) :=
      Nat.mul_pos (by omega) (by omega)
    simp only [plan_range, if_neg hne]
    omega
  · intro j hj
    rw [range_plan_getD _ _ j hj]
    by_cases hje : j = threads - 1
    · subst hje
      have hsm : (threads - 1) * (totalSize / threads)
          = threads * (totalSize / threads) - totalSize / threads :=
        Nat.sub_one_mul threads (totalSize / threads)
      have hle : totalSize / threads ≤ threads * (totalSize / threads) :=
        Nat.le_mul_of_pos_left (totalSize / threads) (by omega)
      simp [plan_range]
      omega
    · have hsm : (j + 1) * (totalSize / threads)
          = j * (totalSize / threads) + (totalSize / threads) := Nat.succ_mul j _
      simp only [plan_range, if_neg hje]
      omega
  · obtain ⟨m, rfl⟩ : ∃ m, threads = m + 1 := ⟨threads - 1, by omega⟩
    rw [range_plan, List.map_map, sum_map_range, Finset.sum_range_succ]
    have hsm : (m + 1) * (totalSize / (m + 1))
        = m * (totalSize / (m + 1)) + (totalSize / (m + 1)) := Nat.succ_mul m _
    have hlast : (fun r => r.2 - r.1 + 1) (plan_range totalSize (m + 1) m)
        = totalSize - m * (totalSize / (m + 1)) := by
      simp [Function.comp, plan_range]
      omega
    have hrest : ∑ i ∈ Finset.range m,
        ((fun r => r.2 - r.1 + 1) ∘ plan_range totalSize (m + 1)) i
        = ∑ _i ∈ Finset.range m, totalSize / (m + 1) :=
      Finset.sum_congr rfl (fun i hi => by
        have him : i < m := Finset.mem_range.mp hi
        have hne : i ≠ (m + 1) - 1 := by omega
        have hsm2 : (i + 1) * (totalSize / (m + 1))
            = i * (totalSize / (m + 1)) + (totalSize / (m + 1)) := Nat.succ_mul i _
        simp only [Function.comp_apply, plan_range, if_neg hne]
        omega)
    rw [hrest, Finset.sum_const, Finset.card_range, smul_eq_mul]
    simp only [Function.comp_apply] at hlast ⊢
    rw [hlast]
    omega

/-- C2: in parallel mode, when all chunk fetches succeed against a
range-honoring server, writing the chunk buffers in ascending range order
reproduces the remote resource byte for byte: the parallel result equals the
single sequential fetch, and every byte offset `k < total_size` agrees. -/
theorem parallel_equals_sequential (remote : List Nat) (totalSize threads : Nat)
    (out : List Nat) (hlen : remote.length = totalSize) (htotal : 0 < totalSize)
    (hth : 2 ≤ threads) (hcs : 1 ≤ totalSize / threads)
    (hok : parallel_download remote totalSize threads = Except.ok out) :
    out = single_threaded_download remote
    ∧ ∀ k, k < totalSize → out.getD k 0 = remote.getD k 0 := by
  have hcov : Covers remote.length 0 (range_plan totalSize threads) := by
    rw [hlen]
    exact covers_range_plan totalSize threads htotal hth hcs
  unfold parallel_download at hok
  cases hfa : fetch_all (honoring_server remote) (range_plan totalSize threads) with
  | error e =>
    rw [hfa] at hok
    cases hok
  | ok chunks =>
    rw [hfa] at hok
    have hout : chunks.flatten = out := by
      cases hok
      rfl
    have hch : chunks = (range_plan totalSize threads).map
        (fun r => (honoring_server remote r).2) := fetch_all_ok _ _ _ hfa
    have hflat : chunks.flatten = remote := by
      rw [hch]
      have h := covers_flatten remote (range_plan totalSize threads) 0 hcov
      simpa [honoring_server] using h
    have hor : out = remote := by rw [← hout, hflat]
    exact ⟨hor, fun k hk => by rw [hor]⟩

/-- C2 (witness): a 10-byte resource fetched with 3 threads assembles to the
same bytes a sequential fetch yields. -/
theorem parallel_equals_sequential_witness :
    parallel_download [3, 1, 4, 1, 5, 9, 2, 6, 5, 3] 10 3
        = Except.ok [3, 1, 4, 1, 5, 9, 2, 6, 5, 3]
    ∧ ([3, 1, 4, 1, 5, 9, 2, 6, 5, 3] : List Nat)
        = single_threaded_download [3, 1, 4, 1, 5, 9, 2, 6, 5, 3] :=
  ⟨rfl, (parallel_equals_sequential [3, 1, 4, 1, 5, 9, 2, 6, 5, 3] 10 3
    [3, 1, 4, 1, 5, 9, 2, 6, 5, 3] rfl (by decide) (by decide) (by decide) rfl).1⟩

/-- C1 (witness): the spec's own example, 1000 bytes over 4 threads. -/
theorem range_plan_partition_witness :
    (range_plan 1000 4).length = 4
    ∧ ((range_plan 1000 4).getD 0 (0, 0)).1 = 0
    ∧ ((range_plan 1000 4).getD 3 (0, 0)).2 = 999
    ∧ (∀ j, j + 1 < 4 →
        ((range_plan 1000 4).getD (j + 1) (0, 0)).1
          = ((range_plan 1000 4).getD j (0, 0)).2 + 1)
    ∧ (∀ j, j < 4 →
        ((range_plan 1000 4).getD j (0, 0)).1 ≤ ((range_plan 1000 4).getD j (0, 0)).2)
    ∧ ((range_plan 1000 4).map (fun r => r.2 - r.1 + 1)).sum = 1000 :=
  range_plan_partition 1000 4 (by decide) (by decide) (by decide)

/-- C5: whenever a transfer resumes from a local offset (the negotiator
reported resumable, so `resume_from` is `Some`), the download proceeds
single-threaded, for every requested thread count: parallel range fetch and
mid-file resume are never combined. -/
theorem resume_forces_single_threaded (totalSize threads offset : Nat)
    (supportsRanges : Bool) :
    decide_mode totalSize threads supportsRanges (some offset) = some DlMode.single := by
  unfold decide_mode
  split
  · rfl
  · simp

/-- C3 (counterexample): the claim says every input with `thread_count <= 1`
falls back to single-threaded mode, but at `total_size = 10`,
`thread_count = 0`, with range support and no resume, the source reaches
`final_total_size / threads` and panics on division by zero instead of
falling back. -/
theorem fallback_zero_threads_panics :
    decide_mode 10 0 true none = none
    ∧ decide_mode 10 0 true none ≠ some DlMode.single := by
  exact ⟨rfl, by decide⟩

/-- C3 (amended): for every fresh download (no resume offset) with
`thread_count ≥ 1`, any of `total_size == 0`, `thread_count == 1`, or
`total_size / thread_count == 0` forces the single-threaded fallback; in all
other cases with range support the parallel path is taken. -/
theorem fallback_decision (totalSize threads : Nat) (supportsRanges : Bool)
    (hth : 1 ≤ threads) :
    (totalSize = 0 ∨ threads = 1 ∨ totalSize / threads = 0 →
      decide_mode totalSize threads supportsRanges none = some DlMode.single)
    ∧ (totalSize ≠ 0 → threads ≠ 1 → totalSize / threads ≠ 0 → supportsRanges = true →
      decide_mode totalSize threads supportsRanges none = some DlMode.parallel) := by
  constructor
  · intro h
    rcases h with h | h | h
    · simp [decide_mode, h]
    · simp [decide_mode, h]
    · by_cases h0 : totalSize = 0
      · simp [decide_mode, h0]
      · by_cases h1 : threads = 1
        · simp [decide_mode, h1]
        · cases hsr : supportsRanges
          · simp [decide_mode, h0, h1, hsr]
          · have hne0 : threads ≠ 0 := by omega
            simp [decide_mode, h0, h1, hsr, hne0, h]
  · intro h0 h1 hch hsr
    have hne0 : threads ≠ 0 := by omega
    simp [decide_mode, h0, h1, hch, hsr, hne0]

/-- C3 (witness): a large fresh download with 4 threads goes parallel, and a
10-byte download with 32 threads falls back to single-threaded. -/
theorem fallback_decision_witness :
    decide_mode 1000 4 true none = some DlMode.parallel
    ∧ decide_mode 10 32 true none = some DlMode.single :=
  ⟨(fallback_decision 1000 4 true (by decide)).2 (by decide) (by decide) (by decide) rfl,
   (fallback_decision 10 32 true (by decide)).1 (Or.inr (Or.inr (by decide)))⟩

/-- C4: the resume negotiator maps server responses as the spec states:
206 is resumable with new total `existing + remaining`; 416 means the file is
already complete; 200 (success, full body) is not resumable with the full
content length as the new total; any other non-success status is an error. -/
theorem resume_negotiation_mapping (contentLength startPos existing : Nat) :
    check_resume_capability 206 contentLength startPos
        = Except.ok (true, contentLength + startPos)
    ∧ check_resume_capability 416 contentLength startPos = Except.ok (false, startPos)
    ∧ classify_resume existing 416 contentLength = ResumeDecision.alreadyComplete
    ∧ check_resume_capability 200 contentLength startPos
        = Except.ok (false, contentLength)
    ∧ (∀ s, isSuccessStatus s = false → s ≠ 416 →
        check_resume_capability s contentLength startPos = Except.error s) := by
  refine ⟨rfl, rfl, ?_, rfl, ?_⟩
  · simp [classify_resume, check_resume_capability]
  · intro s h1 h2
    have h206 : s ≠ 206 := by
      intro h; subst h; simp [isSuccessStatus] at h1
    simp [check_resume_capability, h206, h2, h1]

/-- C4 (witness): concrete instances of the four response mappings. -/
theorem resume_negotiation_mapping_witness :
    check_resume_capability 206 100 50 = Except.ok (true, 150)
    ∧ classify_resume 70 416 0 = ResumeDecision.alreadyComplete
    ∧ check_resume_capability 200 100 50 = Except.ok (false, 100)
    ∧ check_resume_capability 404 100 50 = Except.error 404 := by
  have h := resume_negotiation_mapping 100 50 70
  exact ⟨h.1, h.2.2.1, h.2.2.2.1, h.2.2.2.2 404 (by decide) (by decide)⟩

/-- C8: for every planned range whose inclusive length exceeds the 100 MiB
ceiling, `download_chunk` returns the configuration error before issuing any
HTTP request: the result is the same for every possible server response. -/
theorem chunk_size_ceiling (start stop : Nat)
    (h : MAX_CHUNK_SIZE < stop - start + 1) :
    ∀ status body, download_chunk start stop status body
      = Except.error (ChunkError.tooLarge (stop - start + 1)) := by
  intro status body
  simp [download_chunk, h]

/-- C8 (witness): a range one byte over the ceiling is rejected. -/
theorem chunk_size_ceiling_witness :
    download_chunk 0 MAX_CHUNK_SIZE 206 []
      = Except.error (ChunkError.tooLarge (MAX_CHUNK_SIZE - 0 + 1)) :=
  chunk_size_ceiling 0 MAX_CHUNK_SIZE (by decide) 206 []

/-- C6 (counterexample): on a true sub-range request (bytes 0-4 of a 10-byte
resource) answered with status 200, the chunk fetcher succeeds instead of
failing: it accepts any 2xx status, and a 200-with-full-body response is not
detected. -/
theorem chunk_fetch_accepts_200 :
    (4 : Nat) - 0 + 1 < 10
    ∧ download_chunk 0 4 200 [7, 7, 7, 7, 7] = Except.ok [7, 7, 7, 7, 7] :=
  ⟨by decide, rfl⟩

/-- C6 (amended): within the size ceiling, the chunk fetcher fails exactly
when the response status is not a success (any 4xx/5xx; a 200 answer to a
sub-range request is accepted as success), the error carries the numeric
status (but not the range), and any single worker's error fails the whole
join. -/
theorem chunk_fetch_error_on_failure_status (start stop status : Nat) (body : List Nat)
    (hsize : stop - start + 1 ≤ MAX_CHUNK_SIZE) :
    (isSuccessStatus status = false →
      download_chunk start stop status body = Except.error (ChunkError.http status))
    ∧ (isSuccessStatus status = true →
      download_chunk start stop status body = Except.ok body)
    ∧ (∀ resp plan r e, r ∈ plan → fetch_chunk resp r = Except.error e →
        ∃ e2, fetch_all resp plan = Except.error e2) := by
  have hlt : ¬ MAX_CHUNK_SIZE < stop - start + 1 := Nat.not_lt.mpr hsize
  refine ⟨?_, ?_, fun resp plan r e hm hf => fetch_all_first_error resp plan r e hm hf⟩
  · intro h; simp [download_chunk, hlt, h]
  · intro h; simp [download_chunk, hlt, h]

/-- C6 (witness): a 404 on a small range yields the status error. -/
theorem chunk_fetch_error_witness :
    download_chunk 0 9 404 [] = Except.error (ChunkError.http 404) :=
  (chunk_fetch_error_on_failure_status 0 9 404 [] (by decide)).1 (by decide)

/-- A Content-Disposition value carrying a plain filename first and an RFC
extended (`filename*`) form second. -/
def cdBoth : List Char := "attachment; filename=a.txt; filename*=b.txt".toList

/-- C7 (counterexample): when both a plain and an extended filename are
present and the plain one appears first, the header extraction returns the
plain name `a.txt`, not the extended `b.txt`: the regex takes the first
occurrence, so the extended form does not win. -/
theorem filename_plain_beats_extended :
    extract_filename_from_headers (some cdBoth) = some ("a.txt".toList)
    ∧ ("a.txt".toList : List Char) ≠ "b.txt".toList := by
  exact ⟨by decide, by decide⟩

/-- C7 (amended): the suggested output filename is derived in priority
order: (a) the first filename parameter (plain or extended, whichever occurs
first in the Content-Disposition value) matched by the extraction regex;
(b) otherwise the last slash-separated segment of the URL when nonempty;
(c) otherwise the fixed literal `output`. -/
theorem filename_priority (dispo : List Char) (url : List Char) (name : List Char) :
    (findFilename dispo = some name →
      suggest_filename (some dispo) url = name)
    ∧ (findFilename dispo = none →
      suggest_filename (some dispo) url = extract_filename_from_url url)
    ∧ suggest_filename none url = extract_filename_from_url url
    ∧ ((split_on_slash url).getLastD [] = [] →
        extract_filename_from_url url = "output".toList)
    ∧ ((split_on_slash url).getLastD [] ≠ [] →
        extract_filename_from_url url = (split_on_slash url).getLastD [])
    ∧ findFilename ("attachment; filename*=b.txt; filename=a.txt".toList)
        = some ("b.txt".toList) := by
  refine ⟨?_, ?_, rfl, ?_, ?_, by decide⟩
  · intro h
    simp [suggest_filename, extract_filename_from_headers, h]
  · intro h
    simp [suggest_filename, extract_filename_from_headers, h]
  · intro h
    simp only [extract_filename_from_url]
    rw [if_pos h]
  · intro h
    simp only [extract_filename_from_url]
    rw [if_neg h]

/-- C7 (witness): the header name wins over the URL when the regex matches,
and without a header the URL's last nonempty segment is used. -/
theorem filename_priority_witness :
    suggest_filename (some cdBoth) ("https://example.com/path/to/file.zip".toList)
      = "a.txt".toList
    ∧ suggest_filename none ("https://example.com/path/to/file.zip".toList)
      = extract_filename_from_url ("https://example.com/path/to/file.zip".toList)
    ∧ extract_filename_from_url ("https://example.com/path/to/file.zip".toList)
      = "file.zip".toList := by
  refine ⟨?_, ?_, by decide⟩
  · exact (filename_priority cdBoth ("https://example.com/path/to/file.zip".toList)
      ("a.txt".toList)).1 (by decide)
  · exact (filename_priority cdBoth ("https://example.com/path/to/file.zip".toList)
      ("a.txt".toList)).2.2.1

/-- C9: the digest algorithm used for verification is inferred solely from
the expected string's length (8 = CRC32, 32 = MD5, 40 = SHA1, 64 = SHA256);
any other length is rejected with an input error, and verification fails
without computing any digest (the result does not depend on the digest
oracle). -/
theorem hash_type_by_length (expected : String) (digest : HashType → String) :
    (expected.length = 8 → detect_hash_type expected = some HashType.CRC32)
    ∧ (expected.length = 32 → detect_hash_type expected = some HashType.MD5)
    ∧ (expected.length = 40 → detect_hash_type expected = some HashType.SHA1)
    ∧ (expected.length = 64 → detect_hash_type expected = some HashType.SHA256)
    ∧ (expected.length ≠ 8 → expected.length ≠ 32 → expected.length ≠ 40 →
        expected.length ≠ 64 →
        detect_hash_type expected = none
        ∧ verify_and_display digest expected
            = Except.error ("无法识别哈希值格式: " ++ expected)) := by
  refine ⟨fun h => by simp [detect_hash_type, h], fun h => by simp [detect_hash_type, h],
    fun h => by simp [detect_hash_type, h], fun h => by simp [detect_hash_type, h],
    fun h1 h2 h3 h4 => ?_⟩
  have hd : detect_hash_type expected = none := by
    simp [detect_hash_type, h1, h2, h3, h4]
  exact ⟨hd, by simp [verify_and_display, hd]⟩

/-- C9 (witness): an 8-character value selects CRC32 and a 3-character value
is rejected. -/
theorem hash_type_by_length_witness :
    detect_hash_type "deadbeef" = some HashType.CRC32
    ∧ detect_hash_type "xyz" = none :=
  ⟨(hash_type_by_length "deadbeef" (fun _ => "")).1 (by decide),
   ((hash_type_by_length "xyz" (fun _ => "")).2.2.2.2 (by decide) (by decide)
      (by decide) (by decide)).1⟩

/-- C10: hash verification is case-insensitive in the expected value: with
the computed digest already in lowercase hex, verification succeeds exactly
when it equals the lowercased expected string, and replacing the expected
string by any string with the same lowercasing never changes the outcome of
`verify_hash` or `verify_and_display`. -/
theorem hash_verify_case_insensitive (digest : HashType → String) (t : HashType)
    (expected : String) (hlow : to_lowercase (digest t) = digest t) :
    (verify_hash digest t expected = true ↔ digest t = to_lowercase expected)
    ∧ ∀ e2 : String, to_lowercase e2 = to_lowercase expected →
        verify_hash digest t e2 = verify_hash digest t expected
        ∧ verification_ok (verify_and_display digest e2)
            = verification_ok (verify_and_display digest expected) := by
  constructor
  · simp [verify_hash, hlow]
  · intro e2 h2
    constructor
    · unfold verify_hash
      rw [h2]
    · have hlen : e2.length = expected.length := by
        have hdata : e2.data.map Char.toLower = expected.data.map Char.toLower :=
          congrArg String.data h2
        have h4 : e2.data.length = expected.data.length := by
          have h5 := congrArg List.length hdata
          simpa using h5
        cases e2
        cases expected
        exact h4
      have hdet : detect_hash_type e2 = detect_hash_type expected := by
        simp [detect_hash_type, hlen]
      unfold verify_and_display
      rw [hdet]
      cases hd : detect_hash_type expected with
      | none => rfl
      | some t2 => rw [h2]

/-- C10 (witness): changing the case of the expected value does not change
the outcome, and success means the digest equals the lowercased expected
string. -/
theorem hash_verify_case_insensitive_witness :
    (verify_hash (fun _ => "abc123") HashType.MD5 "ABC123" = true
      ↔ "abc123" = to_lowercase "ABC123")
    ∧ verify_hash (fun _ => "abc123") HashType.MD5 "abc123"
        = verify_hash (fun _ => "abc123") HashType.MD5 "ABC123" :=
  ⟨(hash_verify_case_insensitive (fun _ => "abc123") HashType.MD5 "ABC123"
      (by decide)).1,
   ((hash_verify_case_insensitive (fun _ => "abc123") HashType.MD5 "ABC123"
      (by decide)).2 "abc123" (by decide)).1⟩

end Wget
